import Mathlib

/-!
Shallow embedding of the rent-tracker application's data layer
(`src/app.py`) and proofs about its operations.

The SQLite table `transactions (id INTEGER PRIMARY KEY AUTOINCREMENT,
date TEXT, amount REAL, remark TEXT, running_total REAL)` is modelled as a
list of rows in rowid (insertion) order together with the next
AUTOINCREMENT id.  Dates are ISO `YYYY-MM-DD` strings compared
lexicographically by code point, exactly as SQLite compares TEXT with the
BINARY collation.  REAL amounts are modelled as rationals; the code under
study only adds, negates and takes absolute values of amounts,
operations on which float64 and ℚ agree up to the rounding drift that the
spec itself puts out of scope.
-/

set_option maxRecDepth 100000

namespace RentTracker

/-- Lexicographic (byte-wise) order on character lists: the comparison
SQLite's BINARY collation applies to TEXT columns. -/
def charLeb : List Char → List Char → Bool
  | [], _ => true
  | _ :: _, [] => false
  | a :: as, b :: bs =>
    if a.toNat < b.toNat then true
    else if b.toNat < a.toNat then false
    else charLeb as bs

/-- String comparison used for the `date` column. -/
def strLe (a b : String) : Bool := charLeb a.data b.data

/-- Row of the `transactions` table. -/
structure Txn where
  id : Nat
  date : String
  amount : Rat
  remark : String
  running_total : Rat
deriving DecidableEq, Repr

/-- Database state: rows in rowid order plus the AUTOINCREMENT counter. -/
structure Store where
  rows : List Txn
  nextId : Nat
deriving DecidableEq, Repr

/-- Date order used by `ORDER BY date`. -/
def dateLe (a b : Txn) : Prop := strLe a.date b.date = true

instance : DecidableRel dateLe :=
  fun a b => inferInstanceAs (Decidable (strLe a.date b.date = true))

/-- Stable ascending sort by date: `ORDER BY date` with ties kept in rowid
order (SQLite leaves the tie order unspecified; the stable order is the
one the spec's data model prescribes). -/
def sortByDate (l : List Txn) : List Txn := List.insertionSort dateLe l

/-- Model of `SELECT * FROM transactions ORDER BY date DESC`
(`get_transactions`, app.py line 79): descending by date, with
later-inserted rows first among equal dates. -/
def get_transactions (s : Store) : List Txn := (sortByDate s.rows).reverse

/-- Result of `SELECT running_total FROM transactions ORDER BY date DESC
LIMIT 1` combined with the Python fallback
`last_total[0] if last_total else 0` (app.py lines 70-72). -/
def lastRunningTotal (s : Store) : Rat :=
  match (get_transactions s).head? with
  | none => 0
  | some t => t.running_total

/-- Chronologically last stored transaction, when one exists. -/
def chronoLast (s : Store) : Option Txn := (get_transactions s).head?

/-- Model of `add_transaction(date, amount, remark)` (app.py lines
66-77): insert one row whose running_total is the fetched last total
plus the new amount. -/
def add_transaction (d : String) (a : Rat) (r : String) (s : Store) : Store :=
  { rows := s.rows ++ [⟨s.nextId, d, a, r, lastRunningTotal s + a⟩],
    nextId := s.nextId + 1 }

/-- Model of `update_transaction(transaction_id, new_date, new_amount,
new_remark)` (app.py lines 115-125): `UPDATE transactions SET date = ?,
amount = ?, remark = ? WHERE id = ?`.  The SET list does not touch
`running_total`. -/
def update_transaction (i : Nat) (d : String) (a : Rat) (r : String) (s : Store) : Store :=
  { s with rows := s.rows.map fun t =>
      if t.id = i then { t with date := d, amount := a, remark := r } else t }

/-- Model of `delete_transaction(transaction_id)` (app.py lines 128-134):
`DELETE FROM transactions WHERE id = ?`. -/
def delete_transaction (i : Nat) (s : Store) : Store :=
  { s with rows := s.rows.filter fun t => t.id != i }

/-- Model of `generate_report(start_date, end_date)` (app.py lines
85-94): `SELECT * FROM transactions WHERE date BETWEEN ? AND ? ORDER BY
date`; SQL BETWEEN is inclusive on both ends. -/
def generate_report (startD endD : String) (s : Store) : List Txn :=
  sortByDate (s.rows.filter fun t => strLe startD t.date && strLe t.date endD)

/-! ### CSV parsing (`parse_csv_data`, app.py lines 24-44) -/

/-- Raw CSV row: the textual `Date`, `Amount` and `Remark` fields. -/
structure RawRow where
  Date : String
  Amount : String
  Remark : String
deriving DecidableEq, Repr

/-- CSV row after parsing: ISO date, numeric amount, remark. -/
structure ParsedRow where
  date : String
  amount : Rat
  remark : String
deriving DecidableEq, Repr

/-- Value of a digit list, most significant first. -/
def natOfDigits (cs : List Char) : Nat :=
  cs.foldl (fun n c => n * 10 + (c.toNat - 48)) 0

/-- Whether every character is a decimal digit. -/
def allDigits (cs : List Char) : Bool := cs.all fun c => c.isDigit

/-- Left-pad the decimal form of a number with zeros to a given width,
as `strftime` does for `%Y`, `%m`, `%d`. -/
def padNum (w n : Nat) : String :=
  let s := toString n
  ⟨List.replicate (w - s.length) '0' ++ s.data⟩

/-- Number of days in a month, as the calendar validation inside
`pd.to_datetime(..., format='%d-%m-%Y')` uses. -/
def daysInMonth (y m : Nat) : Nat :=
  if m = 2 then
    if y % 4 = 0 && (y % 100 != 0 || y % 400 = 0) then 29 else 28
  else if m = 4 || m = 6 || m = 9 || m = 11 then 30
  else 31

/-- Model of `pd.to_datetime(df['Date'], format='%d-%m-%Y')` followed by
`.dt.strftime('%Y-%m-%d')` (app.py line 29): a strict `DD-MM-YYYY` parse
(day and month of one or two digits, year of up to four digits, the date
calendar-valid) rendered as zero-padded ISO `YYYY-MM-DD`; any row that
does not parse raises. -/
def parseDateDMY (s : String) : Option String :=
  match s.splitOn "-" with
  | [d, m, y] =>
    if allDigits d.data && allDigits m.data
        && allDigits y.data
        && decide (1 ≤ d.length) && decide (d.length ≤ 2)
        && decide (1 ≤ m.length) && decide (m.length ≤ 2)
        && decide (1 ≤ y.length) && decide (y.length ≤ 4) then
      let dd := natOfDigits d.data
      let mm := natOfDigits m.data
      let yy := natOfDigits y.data
      if decide (1 ≤ mm) && decide (mm ≤ 12)
          && decide (1 ≤ dd) && decide (dd ≤ daysInMonth yy mm) then
        some (padNum 4 yy ++ "-" ++ padNum 2 mm ++ "-" ++ padNum 2 dd)
      else none
    else none
  | _ => none

/-- Split a character list at the first dot, when there is one. -/
def splitDot : List Char → List Char × Option (List Char)
  | [] => ([], none)
  | c :: cs =>
    if c = '.' then ([], some cs)
    else
      let (a, b) := splitDot cs
      (c :: a, b)

/-- Unsigned decimal numeral, with an optional single fractional part
(`123`, `10.5`, `1.`, `.5`). -/
def parseUnsigned (cs : List Char) : Option Rat :=
  match splitDot cs with
  | (a, none) =>
    if decide (a ≠ []) && allDigits a then some (natOfDigits a : Rat) else none
  | (a, some b) =>
    if (decide (a ≠ []) || decide (b ≠ [])) && allDigits a && allDigits b then
      some ((natOfDigits a : Rat) + (natOfDigits b : Rat) / ((10 : Rat) ^ b.length))
    else none

/-- Model of `pd.to_numeric(df['Amount'])` (app.py line 32): an optionally
signed decimal numeral; any row that does not parse raises.  (Exponent
notation, thousands separators and other pandas niceties are out of the
exercised range and omitted.) -/
def parseAmount (s : String) : Option Rat :=
  match s.data with
  | '-' :: rest => (parseUnsigned rest).map fun q => -q
  | '+' :: rest => parseUnsigned rest
  | cs => parseUnsigned cs

/-- Parse one CSV row; `none` when either the date or the amount fails,
which in the source raises out of `parse_csv_data`. -/
def parseRow (r : RawRow) : Option ParsedRow :=
  match parseDateDMY r.Date, parseAmount r.Amount with
  | some d, some a => some ⟨d, a, r.Remark⟩
  | _, _ => none

/-- Parse all CSV rows, all-or-nothing (a single bad row raises for the
whole file). -/
def parseRows : List RawRow → Option (List ParsedRow)
  | [] => some []
  | r :: rs =>
    match parseRow r, parseRows rs with
    | some p, some ps => some (p :: ps)
    | _, _ => none

/-- Date order on parsed rows. -/
def dateLeP (a b : ParsedRow) : Prop := strLe a.date b.date = true

instance : DecidableRel dateLeP :=
  fun a b => inferInstanceAs (Decidable (strLe a.date b.date = true))

/-- Model of `parse_csv_data(csv_path)` (app.py lines 24-44): parse every
row, then sort ascending by the normalized date (`df.sort_values('date')`). -/
def parse_csv_data (raws : List RawRow) : Option (List ParsedRow) :=
  (parseRows raws).map fun ps => List.insertionSort dateLeP ps

/-- Rows built by the insert loop of `import_csv_to_db` (app.py lines
57-61): ids continue from the AUTOINCREMENT counter and `running_total`
accumulates the amounts starting from the given value. -/
def buildRows (nid : Nat) (rt : Rat) : List ParsedRow → List Txn
  | [] => []
  | p :: ps => ⟨nid, p.date, p.amount, p.remark, rt + p.amount⟩ :: buildRows (nid + 1) (rt + p.amount) ps

/-- Model of `import_csv_to_db(csv_path)` (app.py lines 46-64): `DELETE
FROM transactions`, then parse, then insert the sorted rows with running
totals accumulated from zero, and commit once at the end.  When parsing
raises, the commit is never reached, so the uncommitted DELETE is rolled
back when the abandoned connection closes: the observable store is
unchanged and the error surfaces to the caller (app.py lines 202-206). -/
def csvImportToDb (raws : List RawRow) (s : Store) : Store × Option String :=
  match parse_csv_data raws with
  | none => (s, some "MalformedRow")
  | some ps => ({ rows := buildRows s.nextId 0 ps, nextId := s.nextId + ps.length }, none)

/-! ### Analysis (`analyze_transactions`, app.py lines 96-112) -/

/-- Whether `needle` starts the list `hay`. -/
def startsWithChars : List Char → List Char → Bool
  | [], _ => true
  | _ :: _, [] => false
  | a :: as, b :: bs => a == b && startsWithChars as bs

/-- Whether `needle` occurs contiguously inside `hay`. -/
def hasSubChars (needle : List Char) : List Char → Bool
  | [] => startsWithChars needle []
  | b :: bs => startsWithChars needle (b :: bs) || hasSubChars needle bs

/-- Model of `df['remark'].str.contains(pat, na=False)` for the literal
patterns used in the source: case-sensitive substring match. -/
def remarkHas (pat : String) (t : Txn) : Bool := hasSubChars pat.data t.remark.data

/-- Sum of the `amount` column. -/
def sumAmounts (l : List Txn) : Rat := l.foldl (fun a t => a + t.amount) 0

/-- Mean of the `amount` column; `none` models pandas' NaN on an empty
selection. -/
def meanAmounts (l : List Txn) : Option Rat :=
  match l with
  | [] => none
  | _ => some (sumAmounts l / (l.length : Rat))

/-- Result record of `analyze_transactions`. -/
structure Analysis where
  total_rent : Rat
  total_light_bills : Rat
  total_payments : Rat
  avg_monthly_rent : Option Rat
  avg_light_bill : Option Rat
  num_payments : Nat
  current_balance : Rat
deriving DecidableEq, Repr

/-- Model of `analyze_transactions(df)` (app.py lines 96-112).  The
dataframe argument is a list of rows in the order the caller produced;
`current_balance` is `df['running_total'].iloc[0] if not df.empty else 0`,
the running total of the FIRST row of that order. -/
def analyze_transactions (df : List Txn) : Analysis :=
  let rents := df.filter (remarkHas "Rent")
  let lights := df.filter (remarkHas "Light Bill")
  let pays := df.filter (remarkHas "Payment")
  { total_rent := sumAmounts rents
    total_light_bills := sumAmounts lights
    total_payments := |sumAmounts pays|
    avg_monthly_rent := meanAmounts rents
    avg_light_bill := meanAmounts lights
    num_payments := pays.length
    current_balance :=
      match df with
      | [] => 0
      | t :: _ => t.running_total }

/-! ### Derived checks used to state the claims -/

/-- Check that, walking a list in order, each row's `running_total` is the
accumulator plus its own amount (the §3 data-model invariant along a
chronologically sorted listing). -/
def totalsConsistent : Rat → List Txn → Bool
  | _, [] => true
  | acc, t :: ts => decide (t.running_total = acc + t.amount) && totalsConsistent (acc + t.amount) ts

/-- The store satisfies the running-total invariant: in chronological
order (stable tie-break by store order), each `running_total` is the sum
of `amount` over itself and everything before it. -/
def storeConsistent (s : Store) : Bool := totalsConsistent 0 (sortByDate s.rows)

/-- Chronologically last element of a row list (maximum date, latest
store position among ties). -/
def chronoLastL (l : List Txn) : Option Txn := (sortByDate l).getLast?

/-- The spec's §8 scenario store: an empty store after
`add_transaction("2024-01-01", 1000, "Rent")` then
`add_transaction("2024-01-05", -200, "Payment")`. -/
def sampleStore : Store :=
  add_transaction "2024-01-05" (-200) "Payment"
    (add_transaction "2024-01-01" 1000 "Rent" { rows := [], nextId := 1 })

/-- Sample CSV input, the §8 scenario rows in `DD-MM-YYYY` form. -/
def sampleRaws : List RawRow :=
  [⟨"05-01-2024", "-200", "Payment"⟩, ⟨"01-01-2024", "1000", "Rent"⟩]

/-- The parse of `sampleRaws`, before sorting. -/
def sampleParsed : List ParsedRow :=
  [⟨"2024-01-05", -200, "Payment"⟩, ⟨"2024-01-01", 1000, "Rent"⟩]

/-! ### Helper lemmas -/

theorem charLeb_cons {a b : Char} {as bs : List Char} :
    charLeb (a :: as) (b :: bs) = true ↔
      (a.toNat < b.toNat ∨ (a.toNat = b.toNat ∧ charLeb as bs = true)) := by
  simp only [charLeb]
  split_ifs with h1 h2
  · simp [h1]
  · constructor
    · intro h; simp at h
    · rintro (h | ⟨h, _⟩) <;> omega
  · have he : a.toNat = b.toNat := by omega
    simp [he, Nat.lt_irrefl]

theorem charLeb_refl : ∀ cs, charLeb cs cs = true
  | [] => rfl
  | _ :: cs => charLeb_cons.mpr (Or.inr ⟨rfl, charLeb_refl cs⟩)

theorem charLeb_total : ∀ x y, charLeb x y = true ∨ charLeb y x = true
  | [], _ => Or.inl rfl
  | _ :: _, [] => Or.inr rfl
  | a :: as, b :: bs => by
    rw [charLeb_cons, charLeb_cons]
    rcases Nat.lt_trichotomy a.toNat b.toNat with h | h | h
    · exact Or.inl (Or.inl h)
    · rcases charLeb_total as bs with ih | ih
      · exact Or.inl (Or.inr ⟨h, ih⟩)
      · exact Or.inr (Or.inr ⟨h.symm, ih⟩)
    · exact Or.inr (Or.inl h)

theorem charLeb_trans : ∀ x y z, charLeb x y = true → charLeb y z = true → charLeb x z = true
  | [], _, _, _, _ => rfl
  | _ :: _, [], _, h, _ => absurd h (by simp [charLeb])
  | _ :: _, _ :: _, [], _, h => absurd h (by simp [charLeb])
  | a :: as, b :: bs, c :: cs, h1, h2 => by
    rw [charLeb_cons] at h1 h2 ⊢
    rcases h1 with h1 | ⟨h1e, h1r⟩
    · rcases h2 with h2 | ⟨h2e, _⟩
      · exact Or.inl (by omega)
      · exact Or.inl (by omega)
    · rcases h2 with h2 | ⟨h2e, h2r⟩
      · exact Or.inl (by omega)
      · exact Or.inr ⟨by omega, charLeb_trans as bs cs h1r h2r⟩

theorem dateLe_trans {a b c : Txn} (h1 : dateLe a b) (h2 : dateLe b c) : dateLe a c :=
  charLeb_trans a.date.data b.date.data c.date.data h1 h2

theorem sortByDate_perm (l : List Txn) : List.Perm (sortByDate l) l :=
  List.perm_insertionSort dateLe l

theorem sortByDate_sorted (l : List Txn) : List.Sorted dateLe (sortByDate l) := by
  haveI : IsTotal Txn dateLe := ⟨fun a b => charLeb_total a.date.data b.date.data⟩
  haveI : IsTrans Txn dateLe := ⟨fun a b c => charLeb_trans a.date.data b.date.data c.date.data⟩
  exact List.sorted_insertionSort dateLe l

theorem sorted_max_last : ∀ l : List Txn, List.Sorted dateLe l →
    ∀ tl, l.getLast? = some tl → ∀ t, t ∈ l → dateLe t tl
  | [], _, _, h, _, _ => by simp at h
  | [a], _, tl, h, t, ht => by
    simp only [List.getLast?_singleton, Option.some.injEq] at h
    rw [List.mem_singleton] at ht
    subst h; subst ht
    exact charLeb_refl t.date.data
  | a :: b :: bs, hs, tl, h, t, ht => by
    rw [List.getLast?_cons_cons] at h
    rw [List.sorted_cons] at hs
    rcases List.mem_cons.mp ht with rfl | ht2
    · exact dateLe_trans (hs.1 b (List.mem_cons_self b bs))
        (sorted_max_last (b :: bs) hs.2 tl h b (List.mem_cons_self b bs))
    · exact sorted_max_last (b :: bs) hs.2 tl h t ht2

theorem exists_chronoLast (s : Store) (h : s.rows ≠ []) :
    ∃ tl, (get_transactions s).head? = some tl ∧ tl ∈ s.rows ∧ ∀ t ∈ s.rows, dateLe t tl := by
  have hne : sortByDate s.rows ≠ [] := by
    intro hl
    exact h (List.length_eq_zero.mp (((sortByDate_perm s.rows).length_eq).symm.trans
      (by rw [hl]; rfl)))
  cases hgl : (sortByDate s.rows).getLast? with
  | none => exact absurd (List.getLast?_eq_none_iff.mp hgl) hne
  | some tl =>
    refine ⟨tl, ?_, ?_, ?_⟩
    · rw [get_transactions, List.head?_reverse]; exact hgl
    · exact (sortByDate_perm s.rows).mem_iff.mp (List.mem_of_getLast?_eq_some hgl)
    · intro t ht
      exact sorted_max_last _ (sortByDate_sorted s.rows) tl hgl t
        ((sortByDate_perm s.rows).mem_iff.mpr ht)

/-! ### Claim theorems -/

/-- C3: for every store and every `add_transaction(date, amount, remark)`
with `date` at least the maximum stored date, the inserted row's
`running_total` is the previously last (maximum-date) transaction's
`running_total` plus `amount` (zero plus `amount` on an empty store), and
every other stored record is left untouched (the new rows are the old
rows plus one appended record). -/
theorem add_transaction_fastpath (s : Store) (d r : String) (a : Rat)
    (hmax : ∀ t ∈ s.rows, strLe t.date d = true) :
    ∃ rt, (add_transaction d a r s).rows = s.rows ++ [⟨s.nextId, d, a, r, rt⟩]
      ∧ ((s.rows = [] ∧ rt = 0 + a)
        ∨ ∃ tl, chronoLast s = some tl ∧ tl ∈ s.rows
            ∧ (∀ t ∈ s.rows, dateLe t tl) ∧ rt = tl.running_total + a) := by
  refine ⟨lastRunningTotal s + a, rfl, ?_⟩
  by_cases h : s.rows = []
  · left
    refine ⟨h, ?_⟩
    have : lastRunningTotal s = 0 := by
      rw [lastRunningTotal, get_transactions, sortByDate, h]
      rfl
    rw [this]
  · right
    obtain ⟨tl, h1, h2, h3⟩ := exists_chronoLast s h
    refine ⟨tl, h1, h2, h3, ?_⟩
    rw [lastRunningTotal, h1]

/-- Witness for C3 at the §8 scenario store, with a date past both stored
dates. -/
theorem add_transaction_fastpath_witness :
    ∃ rt, (add_transaction "2024-02-01" 300 "Rent" sampleStore).rows
        = sampleStore.rows ++ [⟨sampleStore.nextId, "2024-02-01", 300, "Rent", rt⟩]
      ∧ ((sampleStore.rows = [] ∧ rt = 0 + 300)
        ∨ ∃ tl, chronoLast sampleStore = some tl ∧ tl ∈ sampleStore.rows
            ∧ (∀ t ∈ sampleStore.rows, dateLe t tl) ∧ rt = tl.running_total + 300) :=
  add_transaction_fastpath sampleStore "2024-02-01" "Rent" 300
    (of_decide_eq_true (by with_unfolding_all rfl))

/-- C4: on a store whose ids are distinct (the PRIMARY KEY guarantee) and
contain `i`, `delete_transaction(i)` removes exactly that one record and
leaves every other record — including its `running_total` — and the id
counter unchanged; no recompute happens. -/
theorem delete_transaction_spec (s : Store) (i : Nat)
    (hnd : (s.rows.map Txn.id).Nodup) (hmem : i ∈ s.rows.map Txn.id) :
    ∃ l1 t l2, s.rows = l1 ++ t :: l2 ∧ t.id = i
      ∧ (delete_transaction i s).rows = l1 ++ l2
      ∧ (delete_transaction i s).nextId = s.nextId := by
  obtain ⟨t, ht, hid⟩ : ∃ t ∈ s.rows, t.id = i := by simpa using hmem
  obtain ⟨l1, l2, hsplit⟩ := List.append_of_mem ht
  refine ⟨l1, t, l2, hsplit, hid, ?_, rfl⟩
  rw [hsplit, List.map_append, List.map_cons] at hnd
  rw [List.nodup_append] at hnd
  have hnotl1 : t.id ∉ l1.map Txn.id := fun hin =>
    (hnd.2.2 hin) (List.mem_cons_self _ _)
  have hnotl2 : t.id ∉ l2.map Txn.id := (List.nodup_cons.mp hnd.2.1).1
  show List.filter _ s.rows = l1 ++ l2
  rw [hsplit, List.filter_append, List.filter_cons]
  have hf : (t.id != i) = false := by simp [hid]
  rw [hf]
  have e1 : l1.filter (fun x => x.id != i) = l1 :=
    List.filter_eq_self.mpr fun x hx => by
      simp only [bne_iff_ne, ne_eq]
      intro hxi
      exact hnotl1 (List.mem_map.mpr ⟨x, hx, by rw [hxi, hid]⟩)
  have e2 : l2.filter (fun x => x.id != i) = l2 :=
    List.filter_eq_self.mpr fun x hx => by
      simp only [bne_iff_ne, ne_eq]
      intro hxi
      exact hnotl2 (List.mem_map.mpr ⟨x, hx, by rw [hxi, hid]⟩)
  rw [e1, e2]
  simp

/-- Witness for C4 at the §8 scenario store, deleting id 1. -/
theorem delete_transaction_spec_witness :
    ∃ l1 t l2, sampleStore.rows = l1 ++ t :: l2 ∧ t.id = 1
      ∧ (delete_transaction 1 sampleStore).rows = l1 ++ l2
      ∧ (delete_transaction 1 sampleStore).nextId = sampleStore.nextId :=
  delete_transaction_spec sampleStore 1
    (of_decide_eq_true (by with_unfolding_all rfl))
    (of_decide_eq_true (by with_unfolding_all rfl))

/-- C7: `generate_report(start, end)` returns exactly the stored rows with
`start ≤ date ≤ end` (inclusive on both ends), ascending by date, and its
membership condition mentions only the date — no remark filtering. -/
theorem generate_report_spec (startD endD : String) (s : Store) :
    List.Sorted dateLe (generate_report startD endD s)
    ∧ List.Perm (generate_report startD endD s)
        (s.rows.filter fun t => strLe startD t.date && strLe t.date endD)
    ∧ ∀ t, t ∈ generate_report startD endD s ↔
        (t ∈ s.rows ∧ strLe startD t.date = true ∧ strLe t.date endD = true) := by
  refine ⟨sortByDate_sorted _, sortByDate_perm _, fun t => ?_⟩
  rw [generate_report, (sortByDate_perm _).mem_iff, List.mem_filter]
  simp [Bool.and_eq_true, and_assoc]

/-- Witness for C7 at the §8 scenario store and the January 2024 range. -/
theorem generate_report_spec_witness :
    List.Sorted dateLe (generate_report "2024-01-01" "2024-01-31" sampleStore)
    ∧ List.Perm (generate_report "2024-01-01" "2024-01-31" sampleStore)
        (sampleStore.rows.filter fun t =>
          strLe "2024-01-01" t.date && strLe t.date "2024-01-31")
    ∧ ∀ t, t ∈ generate_report "2024-01-01" "2024-01-31" sampleStore ↔
        (t ∈ sampleStore.rows ∧ strLe "2024-01-01" t.date = true
          ∧ strLe t.date "2024-01-31" = true) :=
  generate_report_spec "2024-01-01" "2024-01-31" sampleStore

/-- C8: deleting or updating an id that is not stored leaves the store
entirely unchanged. -/
theorem nonexistent_id_noop (s : Store) (i : Nat) (hnot : i ∉ s.rows.map Txn.id) :
    delete_transaction i s = s ∧ ∀ d a r, update_transaction i d a r s = s := by
  have hne : ∀ t ∈ s.rows, t.id ≠ i := fun t ht h => hnot (List.mem_map.mpr ⟨t, ht, h⟩)
  constructor
  · have hfl : s.rows.filter (fun t => t.id != i) = s.rows :=
      List.filter_eq_self.mpr fun t ht => by simpa using hne t ht
    cases s
    simp only [delete_transaction] at hfl ⊢
    rw [hfl]
  · intro d a r
    have hmp : (s.rows.map fun t =>
        if t.id = i then { t with date := d, amount := a, remark := r } else t) = s.rows := by
      have := List.map_congr_left (l := s.rows)
        (f := fun t => if t.id = i then { t with date := d, amount := a, remark := r } else t)
        (g := id) (fun t ht => if_neg (hne t ht))
      rw [this, List.map_id]
    cases s
    simp only [update_transaction] at hmp ⊢
    rw [hmp]

/-- Witness for C8 at the §8 scenario store with the absent id 99. -/
theorem nonexistent_id_noop_witness :
    delete_transaction 99 sampleStore = sampleStore
      ∧ ∀ d a r, update_transaction 99 d a r sampleStore = sampleStore :=
  nonexistent_id_noop sampleStore 99 (of_decide_eq_true (by with_unfolding_all rfl))

/-- C10: `get_transactions` returns every stored transaction, sorted by
date descending, and on a nonempty store its first element is the
chronologically last transaction (it attains the maximum date). -/
theorem get_transactions_spec (s : Store) :
    List.Perm (get_transactions s) s.rows
    ∧ List.Sorted (fun a b => dateLe b a) (get_transactions s)
    ∧ (s.rows ≠ [] → ∃ tl, (get_transactions s).head? = some tl
        ∧ tl ∈ s.rows ∧ ∀ t ∈ s.rows, dateLe t tl) := by
  refine ⟨?_, ?_, exists_chronoLast s⟩
  · exact (List.reverse_perm _).trans (sortByDate_perm s.rows)
  · exact List.pairwise_reverse.mpr (sortByDate_sorted s.rows)

/-- Witness for C10 at the §8 scenario store. -/
theorem get_transactions_spec_witness :
    ∃ tl, (get_transactions sampleStore).head? = some tl
      ∧ tl ∈ sampleStore.rows ∧ ∀ t ∈ sampleStore.rows, dateLe t tl :=
  (get_transactions_spec sampleStore).2.2 (of_decide_eq_true (by with_unfolding_all rfl))

theorem parseRows_length : ∀ raws ps, parseRows raws = some ps → ps.length = raws.length
  | [], ps, h => by
    simp only [parseRows, Option.some.injEq] at h
    simp [← h]
  | r :: rs, ps, h => by
    simp only [parseRows] at h
    cases hr : parseRow r with
    | none => rw [hr] at h; exact absurd h (by simp)
    | some p =>
      cases hrs : parseRows rs with
      | none => rw [hr, hrs] at h; exact absurd h (by simp)
      | some ps2 =>
        rw [hr, hrs] at h
        simp only [Option.some.injEq] at h
        rw [← h]
        simp [parseRows_length rs ps2 hrs]

theorem buildRows_length : ∀ (ps : List ParsedRow) (n : Nat) (acc : Rat),
    (buildRows n acc ps).length = ps.length
  | [], _, _ => rfl
  | p :: ps, n, acc => by simp [buildRows, buildRows_length ps]

theorem buildRows_triples : ∀ (ps : List ParsedRow) (n : Nat) (acc : Rat),
    (buildRows n acc ps).map (fun t => (t.date, t.amount, t.remark))
      = ps.map fun p => (p.date, p.amount, p.remark)
  | [], _, _ => rfl
  | p :: ps, n, acc => by simp [buildRows, buildRows_triples ps]

theorem buildRows_dates : ∀ (ps : List ParsedRow) (n : Nat) (acc : Rat),
    (buildRows n acc ps).map Txn.date = ps.map ParsedRow.date
  | [], _, _ => rfl
  | p :: ps, n, acc => by simp [buildRows, buildRows_dates ps]

theorem buildRows_totals : ∀ (ps : List ParsedRow) (n : Nat) (acc : Rat),
    totalsConsistent acc (buildRows n acc ps) = true
  | [], _, _ => rfl
  | p :: ps, n, acc => by
    simp only [buildRows, totalsConsistent, Bool.and_eq_true, decide_eq_true_eq]
    exact ⟨by trivial, buildRows_totals ps (n + 1) (acc + p.amount)⟩

theorem sorted_buildRows (ps : List ParsedRow) (n : Nat) (acc : Rat)
    (h : List.Sorted dateLeP ps) : List.Sorted dateLe (buildRows n acc ps) := by
  have h1 : (ps.map ParsedRow.date).Pairwise (fun a b => strLe a b = true) :=
    List.pairwise_map.mpr h
  have h2 : ((buildRows n acc ps).map Txn.date).Pairwise (fun a b => strLe a b = true) := by
    rw [buildRows_dates]; exact h1
  have h3 : (buildRows n acc ps).Pairwise (fun a b => strLe a.date b.date = true) :=
    List.pairwise_map.mp h2
  exact h3

theorem sortedP_insertionSort (ps : List ParsedRow) :
    List.Sorted dateLeP (List.insertionSort dateLeP ps) := by
  haveI : IsTotal ParsedRow dateLeP := ⟨fun a b => charLeb_total a.date.data b.date.data⟩
  haveI : IsTrans ParsedRow dateLeP :=
    ⟨fun a b c => charLeb_trans a.date.data b.date.data c.date.data⟩
  exact List.sorted_insertionSort dateLeP ps

/-- C2: when every row of the CSV parses, the import replaces the store
content with exactly the N parsed rows sorted ascending by normalized
date, the i-th row's `running_total` being the sum of the sorted amounts
up to it, accumulated from zero — no chaining onto any prior balance —
and no error is raised. -/
theorem csv_import_valid (raws : List RawRow) (s : Store) (ps : List ParsedRow)
    (hp : parseRows raws = some ps) :
    (csvImportToDb raws s).2 = none
    ∧ (csvImportToDb raws s).1.rows.length = raws.length
    ∧ List.Sorted dateLe (csvImportToDb raws s).1.rows
    ∧ List.Perm ((csvImportToDb raws s).1.rows.map fun t => (t.date, t.amount, t.remark))
        (ps.map fun p => (p.date, p.amount, p.remark))
    ∧ totalsConsistent 0 (csvImportToDb raws s).1.rows = true := by
  have hpc : parse_csv_data raws = some (List.insertionSort dateLeP ps) := by
    rw [parse_csv_data, hp]; rfl
  simp only [csvImportToDb, hpc]
  refine ⟨by trivial, ?_, ?_, ?_, ?_⟩
  · rw [buildRows_length, (List.perm_insertionSort dateLeP ps).length_eq]
    exact parseRows_length raws ps hp
  · exact sorted_buildRows _ _ _ (sortedP_insertionSort ps)
  · rw [buildRows_triples]
    exact (List.perm_insertionSort dateLeP ps).map _
  · exact buildRows_totals _ _ _

/-- Witness for C2: importing the §8 scenario rows, given out of order in
`DD-MM-YYYY` form, into the empty store. -/
theorem csv_import_valid_witness :
    parseRows sampleRaws = some sampleParsed
    ∧ (csvImportToDb sampleRaws ⟨[], 1⟩).2 = none
    ∧ (csvImportToDb sampleRaws ⟨[], 1⟩).1.rows.length = sampleRaws.length
    ∧ totalsConsistent 0 (csvImportToDb sampleRaws ⟨[], 1⟩).1.rows = true := by
  have h : parseRows sampleRaws = some sampleParsed :=
    of_decide_eq_true (by with_unfolding_all rfl)
  exact ⟨h, (csv_import_valid sampleRaws ⟨[], 1⟩ sampleParsed h).1,
    (csv_import_valid sampleRaws ⟨[], 1⟩ sampleParsed h).2.1,
    (csv_import_valid sampleRaws ⟨[], 1⟩ sampleParsed h).2.2.2.2⟩

theorem parseRow_none {r : RawRow}
    (h : parseDateDMY r.Date = none ∨ parseAmount r.Amount = none) :
    parseRow r = none := by
  rw [parseRow]
  rcases h with h | h
  · rw [h]
  · rw [h]
    cases parseDateDMY r.Date <;> rfl

theorem parseRows_none_of_bad : ∀ raws : List RawRow,
    (∃ r ∈ raws, parseDateDMY r.Date = none ∨ parseAmount r.Amount = none) →
    parseRows raws = none
  | [], h => absurd h (by simp)
  | r :: rs, h => by
    rcases h with ⟨x, hx, hbad⟩
    rcases List.mem_cons.mp hx with rfl | hx2
    · rw [parseRows, parseRow_none hbad]
    · rw [parseRows, parseRows_none_of_bad rs ⟨x, hx2, hbad⟩]
      cases parseRow r <;> rfl

/-- C5: a CSV containing a row whose Date or Amount fails to parse makes
the import raise, store no rows, and leave the store content exactly as
before (the uncommitted DELETE is rolled back): the whole batch is
rejected with no partial-row skipping. -/
theorem csv_import_malformed (raws : List RawRow) (s : Store)
    (hbad : ∃ r ∈ raws, parseDateDMY r.Date = none ∨ parseAmount r.Amount = none) :
    csvImportToDb raws s = (s, some "MalformedRow") := by
  rw [csvImportToDb, parse_csv_data, parseRows_none_of_bad raws hbad]
  rfl

/-- Witness for C5: a file whose second row's Amount is not numeric, run
against the §8 scenario store. -/
theorem csv_import_malformed_witness :
    csvImportToDb [⟨"01-01-2024", "1000", "Rent"⟩, ⟨"05-01-2024", "abc", "Payment"⟩] sampleStore
      = (sampleStore, some "MalformedRow") :=
  csv_import_malformed _ sampleStore
    ⟨⟨"05-01-2024", "abc", "Payment"⟩, by simp,
      Or.inr (of_decide_eq_true (by with_unfolding_all rfl))⟩

/-- C1 counterexample: in the §8 scenario store (whose totals satisfy the
invariant) the id 1 exists, yet after `update_transaction(1, ...)` halving
that row's amount the store no longer satisfies the full-recompute
invariant, and every row's `running_total` — the edited row's included —
is exactly what it was before the edit: no recompute happened. -/
theorem update_transaction_cex :
    (1 ∈ sampleStore.rows.map Txn.id)
    ∧ storeConsistent sampleStore = true
    ∧ storeConsistent (update_transaction 1 "2024-01-01" 500 "Rent" sampleStore) = false
    ∧ (update_transaction 1 "2024-01-01" 500 "Rent" sampleStore).rows.map Txn.running_total
        = sampleStore.rows.map Txn.running_total :=
  of_decide_eq_true (by with_unfolding_all rfl)

/-- C1 amended: `update_transaction(id, new_date, new_amount, new_remark)`
performs NO running-total recompute: it rewrites the date, amount and
remark of the matching row, leaves every row's `running_total` and id
unchanged, and leaves non-matching rows entirely unchanged. -/
theorem update_transaction_no_recompute (s : Store) (i : Nat) (d r : String) (a : Rat) :
    ((update_transaction i d a r s).rows.map Txn.running_total
        = s.rows.map Txn.running_total)
    ∧ ((update_transaction i d a r s).rows.map Txn.id = s.rows.map Txn.id)
    ∧ (∀ t ∈ (update_transaction i d a r s).rows, t.id ≠ i → t ∈ s.rows)
    ∧ (∀ t ∈ (update_transaction i d a r s).rows, t.id = i →
        t.date = d ∧ t.amount = a ∧ t.remark = r) := by
  simp only [update_transaction]
  refine ⟨?_, ?_, ?_, ?_⟩
  · rw [List.map_map]
    exact List.map_congr_left fun t _ => by
      by_cases h : t.id = i <;> simp [h]
  · rw [List.map_map]
    exact List.map_congr_left fun t _ => by
      by_cases h : t.id = i <;> simp [h]
  · intro t ht hne
    obtain ⟨u, hu, hut⟩ := List.mem_map.mp ht
    by_cases h : u.id = i
    · rw [if_pos h] at hut
      exact absurd (by rw [← hut]; exact h) hne
    · rw [if_neg h] at hut
      exact hut ▸ hu
  · intro t ht heq
    obtain ⟨u, hu, hut⟩ := List.mem_map.mp ht
    by_cases h : u.id = i
    · rw [if_pos h] at hut
      rw [← hut]
      exact ⟨rfl, rfl, rfl⟩
    · rw [if_neg h] at hut
      exact absurd (hut ▸ heq) h

/-- Witness for the amended C1 at the §8 scenario store. -/
theorem update_transaction_no_recompute_witness :
    (update_transaction 1 "2024-01-01" 500 "Rent" sampleStore).rows.map Txn.running_total
      = sampleStore.rows.map Txn.running_total :=
  (update_transaction_no_recompute sampleStore 1 "2024-01-01" "Rent" 500).1

/-- C6 counterexample: `analyze_transactions` on the report of the §8
scenario store (which `generate_report` orders ascending by date, and
which the report page feeds to `analyze_transactions`, app.py line 351)
returns `current_balance = 1000`, while the chronologically last
transaction of that set has `running_total = 800`. -/
theorem analyze_balance_cex :
    (analyze_transactions
        (generate_report "2024-01-01" "2024-01-31" sampleStore)).current_balance = 1000
    ∧ (chronoLastL (generate_report "2024-01-01" "2024-01-31" sampleStore)).map
        Txn.running_total = some 800
    ∧ (1000 : Rat) ≠ 800 :=
  of_decide_eq_true (by with_unfolding_all rfl)

/-- C6 amended: `analyze_transactions` returns `current_balance` equal to
the `running_total` of the FIRST row of the dataframe it is handed (zero
on an empty one, without raising); that equals the chronologically last
transaction's `running_total` exactly when the input is ordered date
descending, as `get_transactions` produces. -/
theorem analyze_balance_amended (df : List Txn) (s : Store) :
    (analyze_transactions []).current_balance = 0
    ∧ (analyze_transactions df).current_balance = (df.head?.map Txn.running_total).getD 0
    ∧ (s.rows ≠ [] → ∃ tl, chronoLast s = some tl
        ∧ (analyze_transactions (get_transactions s)).current_balance = tl.running_total
        ∧ ∀ t ∈ s.rows, dateLe t tl) := by
  refine ⟨rfl, ?_, ?_⟩
  · cases df <;> rfl
  · intro h
    obtain ⟨tl, h1, h2, h3⟩ := exists_chronoLast s h
    refine ⟨tl, h1, ?_, h3⟩
    cases hg : get_transactions s with
    | nil => rw [hg] at h1; simp at h1
    | cons t ts =>
      rw [hg] at h1
      simp only [List.head?_cons, Option.some.injEq] at h1
      rw [← h1]
      rfl

/-- Witness for the amended C6 at the §8 scenario store. -/
theorem analyze_balance_amended_witness :
    ∃ tl, chronoLast sampleStore = some tl
      ∧ (analyze_transactions (get_transactions sampleStore)).current_balance
          = tl.running_total
      ∧ ∀ t ∈ sampleStore.rows, dateLe t tl :=
  (analyze_balance_amended [] sampleStore).2.2 (of_decide_eq_true (by with_unfolding_all rfl))

/-- C9: `total_payments` is the absolute value of the summed amounts of
the rows whose remark contains the case-sensitive substring "Payment",
and on the §8 scenario store — running totals [1000, 800] — the analysis
of `get_transactions` gives `total_rent = 1000`, `total_payments = 200`
and `current_balance = 800`. -/
theorem analyze_payments_spec (df : List Txn) :
    (analyze_transactions df).total_payments
        = |sumAmounts (df.filter (remarkHas "Payment"))|
    ∧ sampleStore.rows.map Txn.running_total = [1000, 800]
    ∧ (analyze_transactions (get_transactions sampleStore)).total_rent = 1000
    ∧ (analyze_transactions (get_transactions sampleStore)).total_payments = 200
    ∧ (analyze_transactions (get_transactions sampleStore)).current_balance = 800 := by
  refine ⟨rfl, ?_⟩
  exact of_decide_eq_true (by with_unfolding_all rfl)

/-- Witness for C9, instantiated at the §8 scenario listing. -/
theorem analyze_payments_spec_witness :
    (analyze_transactions (get_transactions sampleStore)).total_payments
      = |sumAmounts ((get_transactions sampleStore).filter (remarkHas "Payment"))| :=
  (analyze_payments_spec (get_transactions sampleStore)).1

end RentTracker
